import Mathlib

/-!
Verification of the vizuly2 weighted-tree component and its core layout
utilities (src/core/Util.js, src/viz/WeightedTree.js).

JavaScript numbers are modelled as `Option ℚ`, where `none` stands for the
non-value `NaN` (and, where noted, for `undefined` flowing into numeric
positions, since `Number(undefined)` and arithmetic on `undefined` yield
`NaN`).  Geometry that goes through `Math.sqrt` (the d3 square-root scale) is
modelled over `ℝ`.  All other code is embedded as computable functions.
-/

namespace Vizuly

/-- A JavaScript value in the positions the margin/size utilities accept:
either a number or a string. -/
inductive JSVal where
  | num (q : ℚ)
  | str (s : String)
deriving DecidableEq

/-- JS whitespace trimmed by the `Number` builtin before parsing. -/
def isJsSpace (c : Char) : Bool :=
  c = ' ' || c = '\t' || c = '\n' || c = '\r'

/-- Value of a digit list read in base 10 (most significant first). -/
def digitsVal (cs : List Char) : ℕ :=
  cs.foldl (fun a c => a * 10 + (c.toNat - 48)) 0

/-- Model of the JS `Number(string)` coercion (an external host builtin) for
the decimal fragment it is applied to in this code base: optional sign,
decimal digits, optional fraction; surrounding whitespace trimmed; the empty
or all-whitespace string coerces to `0`; anything else (including hex or
exponent forms, which never arise here) is `NaN` (`none`). -/
def jsToNumberChars (cs0 : List Char) : Option ℚ :=
  let cs := ((cs0.dropWhile isJsSpace).reverse.dropWhile isJsSpace).reverse
  match cs with
  | [] => some 0
  | _ =>
    let sr : ℚ × List Char :=
      match cs with
      | '+' :: r => (1, r)
      | '-' :: r => (-1, r)
      | r => (1, r)
    let intPart := sr.2.takeWhile Char.isDigit
    let rest := sr.2.dropWhile Char.isDigit
    match rest with
    | [] => if intPart.isEmpty then none else some (sr.1 * (digitsVal intPart : ℚ))
    | '.' :: frac =>
      if frac.all Char.isDigit && !(intPart.isEmpty && frac.isEmpty) then
        some (sr.1 * ((digitsVal intPart : ℚ) +
          (digitsVal frac : ℚ) / ((10 : ℚ) ^ frac.length)))
      else none
    | _ => none

/-- `Number` applied to a string. -/
def jsToNumber (s : String) : Option ℚ :=
  jsToNumberChars s.toList

/-- `Number` applied to a `JSVal` (a number coerces to itself). -/
def jsNumber : JSVal → Option ℚ
  | .num q => some q
  | .str s => jsToNumber s

/-- JS `Math.round`: round half toward positive infinity. -/
def jsRound (q : ℚ) : ℚ :=
  ((⌊q + 1 / 2⌋ : ℤ) : ℚ)

/-- `vizuly2.core.util.measure` (Util.js lines 102-108): a string ending in
`%` is parsed, clamped to at most `100`, scaled against `m1` and rounded;
every other value goes through the `Number` coercion. -/
def measure (m0 : JSVal) (m1 : ℚ) : Option ℚ :=
  match m0 with
  | .str s =>
    if s.toList.getLast? = some '%' then
      match jsToNumberChars s.toList.dropLast with
      | none => none                               -- Math.min(NaN,100), round(NaN) stay NaN
      | some p => some (jsRound (m1 * (min p 100 / 100)))
    else jsToNumber (s)
  | .num q => some q

/-- NaN-propagating JS subtraction. -/
def jsSub : Option ℚ → Option ℚ → Option ℚ
  | some a, some b => some (a - b)
  | _, _ => none

/-- The caller-supplied margin object. -/
structure Margin where
  top : JSVal
  bottom : JSVal
  left : JSVal
  right : JSVal
deriving DecidableEq

/-- The object `vizuly2.core.util.size` returns. -/
structure SizeResult where
  width : Option ℚ
  height : Option ℚ
  top : Option ℚ
  left : Option ℚ
  bottom : Option ℚ
  right : Option ℚ
deriving DecidableEq

/-- `vizuly2.core.util.size` (Util.js lines 47-59): resolve each margin side
against the matching axis and subtract the horizontal (resp. vertical)
margins from the width (resp. height). -/
def size (margin : Margin) (width height : ℚ) : SizeResult :=
  { width := jsSub (jsSub (some width) (measure margin.left width)) (measure margin.right width)
    height := jsSub (jsSub (some height) (measure margin.top height)) (measure margin.bottom height)
    top := measure margin.top height
    left := measure margin.left width
    bottom := measure margin.bottom height
    right := measure margin.right width }

/-- `updateNode`'s duration defaulting (WeightedTree.js line 418):
`if (!duration) duration = scope.duration`.  The falsy numbers are `0` (and
`NaN`, unreachable here); `none` stands for the argument being omitted. -/
def resolveDuration (duration : Option ℚ) (scopeDuration : ℚ) : ℚ :=
  match duration with
  | none => scopeDuration
  | some q => if q = 0 then scopeDuration else q

/-- The transition duration actually used by the render pass that
`toggleNode` invokes: `toggleNode` calls `updateNode(d, 0)`
(WeightedTree.js lines 675 and 679). -/
def toggleNodeUpdateDuration (scopeDuration : ℚ) : ℚ :=
  resolveDuration (some 0) scopeDuration

/-! ### `vizuly2.core.util.aggregateNest` (Util.js lines 187-242)

A d3 nest is a list of entries; an entry is either a raw record (a leaf, a
plain object with named fields and no `values` property) or a group carrying
a `key` and a nonempty `values` list of entries one level down.  The function
mutates each node in place, attaching `agg_<prop>`; here the attached value
is computed functionally by `aggProp`.  The `childProp_<field>` side
mutation performed by `setSourceFields` writes only `childProp_`-prefixed
fields, which are disjoint from the `agg_` fields and from the plain record
fields the aggregation reads, so it cannot affect the aggregate values and
is not modelled. -/

/-- A d3 nest node: a raw leaf record, or a keyed group of sub-entries. -/
inductive Nest where
  | leaf (record : List (String × JSVal))
  | group (key : String) (values : List Nest)

/-- `Number(record[prop])` where a missing property (`undefined`) coerces to
`NaN`. -/
def jsNumberOpt : Option JSVal → Option ℚ
  | none => none
  | some v => jsNumber v

mutual

/-- The `agg_<prop>` value `aggregateNodes` attaches to a nest node: leaves
get `Number(record[prop])` with `NaN` replaced by `0`; groups fold
`calculation` over their children's aggregates, the accumulator starting as
`undefined` and being reset to `0` whenever `isNaN` holds (in particular on
the first iteration). -/
def aggProp (calcF : Option ℚ → Option ℚ → Option ℚ) (p : String) : Nest → Option ℚ
  | .leaf r =>
    match jsNumberOpt (r.lookup p) with
    | none => some 0
    | some q => some q
  | .group _ vs => aggFold calcF p vs none

/-- The `for (var z = ...)` loop in `aggregateNodes`: one step per child,
`if (isNaN(acc)) acc = 0; acc = calculation(acc, child.agg)`. -/
def aggFold (calcF : Option ℚ → Option ℚ → Option ℚ) (p : String) :
    List Nest → Option ℚ → Option ℚ
  | [], acc => acc
  | c :: cs, acc =>
    let acc1 : Option ℚ := match acc with
      | none => some 0
      | some q => some q
    aggFold calcF p cs (calcF acc1 (aggProp calcF p c))

end

mutual

/-- The spec's description of the aggregate: leaves get
`Number(record[prop])` (`0` if not-a-number); groups get the combine
function folded left-to-right over the children's aggregates, seeded at
`0`. -/
def aggSpec (g : ℚ → ℚ → ℚ) (p : String) : Nest → ℚ
  | .leaf r => (jsNumberOpt (r.lookup p)).getD 0
  | .group _ vs => aggSpecFold g p vs 0

/-- Left-to-right fold of the combine function over children aggregates. -/
def aggSpecFold (g : ℚ → ℚ → ℚ) (p : String) : List Nest → ℚ → ℚ
  | [], acc => acc
  | c :: cs, acc => aggSpecFold g p cs (g acc (aggSpec g p c))

end

/-- A calculation of the documented shape `Number(a) + Number(b)` lifted to
JS numbers: total on numbers, `NaN`-propagating otherwise. -/
def liftCalc (g : ℚ → ℚ → ℚ) : Option ℚ → Option ℚ → Option ℚ
  | some a, some b => some (g a b)
  | _, _ => none

mutual

/-- Every group in the nest tree has a nonempty `values` list, which is an
invariant of every nest `d3.nest().entries(...)` produces (groups arise only
from at least one record). -/
def groupsNonemptyB : Nest → Bool
  | .leaf _ => true
  | .group _ vs => !vs.isEmpty && groupsNonemptyListB vs

/-- `groupsNonemptyB` over a list of nest nodes. -/
def groupsNonemptyListB : List Nest → Bool
  | [] => true
  | c :: cs => groupsNonemptyB c && groupsNonemptyListB cs

end

/-! ### LayoutNode expand/collapse state (WeightedTree.js)

`d3.hierarchy` assigns a node a `children` array only when the accessor
returns a nonempty array, so at every point of the component's lifetime both
`children` and the stashed `_children` are either absent (`null` /
`undefined`) or nonempty; the empty list models the absent value, matching
JS truthiness (`if (d.children)`).  Only the two toggled fields are
modelled; the other LayoutNode attributes (`x`, `y`, `x0`, `y0`, `depth`,
`data`, ids) are untouched by `collapse` and `toggleNode`. -/

/-- A hierarchy node, reduced to its `children` and `_children` fields. -/
inductive VNode where
  | mk (children : List VNode) (hidden : List VNode)

/-- The `children` field. -/
def VNode.children : VNode → List VNode
  | .mk cs _ => cs

/-- The `_children` field (stashed collapsed children). -/
def VNode.hiddenChildren : VNode → List VNode
  | .mk _ hs => hs

mutual

/-- The inner `collapse` of `measure` (WeightedTree.js lines 292-298): if a
node has children, move them to `_children` (overwriting it), collapse them
recursively, and clear `children`. -/
def collapse : VNode → VNode
  | .mk [] hs => .mk [] hs
  | .mk (c :: cs) _ => .mk [] (collapseList (c :: cs))

/-- `d._children.forEach(collapse)`. -/
def collapseList : List VNode → List VNode
  | [] => []
  | c :: cs => collapse c :: collapseList cs

end

/-- The first-build collapse, `hieararchy.children.forEach(collapse)`
(WeightedTree.js line 300): collapse each immediate child of the root. -/
def initialCollapse : VNode → VNode
  | .mk cs hs => .mk (collapseList cs) hs

mutual

/-- The nodes the tree layout operates on: a node and, recursively, its
`children` (collapsed subtrees sit in `_children` and are excluded). -/
def activeNodes : VNode → List VNode
  | .mk cs hs => .mk cs hs :: activeNodesList cs

/-- `activeNodes` over a children list. -/
def activeNodesList : List VNode → List VNode
  | [] => []
  | c :: cs => activeNodes c ++ activeNodesList cs

end

mutual

/-- Total node count of a hierarchy, following both `children` and
`_children`. -/
def countNodes : VNode → ℕ
  | .mk cs hs => 1 + countNodesList cs + countNodesList hs

/-- `countNodes` over a list. -/
def countNodesList : List VNode → ℕ
  | [] => 0
  | c :: cs => countNodes c + countNodesList cs

end

mutual

/-- A freshly built hierarchy: no node anywhere has stashed `_children`. -/
def freshB : VNode → Bool
  | .mk cs hs => hs.isEmpty && freshListB cs

/-- `freshB` over a list. -/
def freshListB : List VNode → Bool
  | [] => true
  | c :: cs => freshB c && freshListB cs

end

mutual

/-- Every node of the hierarchy (following both fields) has an empty
`children` field: the subtree is fully collapsed. -/
def allCollapsedB : VNode → Bool
  | .mk cs hs => cs.isEmpty && allCollapsedListB cs && allCollapsedListB hs

/-- `allCollapsedB` over a list. -/
def allCollapsedListB : List VNode → Bool
  | [] => true
  | c :: cs => allCollapsedB c && allCollapsedListB cs

end

/-- The claimed per-node invariant: exactly one of `children`, `_children`
is nonempty. -/
def exactlyOneB (t : VNode) : Bool :=
  (!t.children.isEmpty && t.hiddenChildren.isEmpty) ||
    (t.children.isEmpty && !t.hiddenChildren.isEmpty)

/-- The corrected per-node invariant: at most one of `children`,
`_children` is nonempty. -/
def atMostOneB (t : VNode) : Bool :=
  t.children.isEmpty || t.hiddenChildren.isEmpty

mutual

/-- `atMostOneB` at every node of the hierarchy. -/
def allAtMostOneB : VNode → Bool
  | .mk cs hs => (cs.isEmpty || hs.isEmpty) && allAtMostOneListB cs && allAtMostOneListB hs

/-- `allAtMostOneB` over a list. -/
def allAtMostOneListB : List VNode → Bool
  | [] => true
  | c :: cs => allAtMostOneB c && allAtMostOneListB cs

end

/-- Which node `toggleNode` hands to `zoomToNode`. -/
inductive ZoomTarget where
  | self
  | parent
deriving DecidableEq

/-- `toggleNode` (WeightedTree.js lines 671-683): with children present,
move them to `_children` (discarding its previous value) and zoom to the
parent when one exists; otherwise restore `_children` into `children` and
zoom to the node itself when it now has children.  Both branches re-render
through `updateNode(d, 0)` (see `toggleNodeUpdateDuration`). -/
def toggleNode : VNode → Bool → VNode × Option ZoomTarget
  | .mk (c :: cs) _, hasParent =>
    (.mk [] (c :: cs), if hasParent then some .parent else none)
  | .mk [] hs, _ =>
    (.mk hs [], if hs.isEmpty then none else some .self)

/-- The field mutation `toggleNode` performs on the clicked node. -/
def toggleFields (t : VNode) : VNode :=
  (toggleNode t false).1

/-- Replace the element at an index, leaving the list unchanged when the
index is out of range. -/
def modifyIdx (f : VNode → VNode) : ℕ → List VNode → List VNode
  | _, [] => []
  | 0, a :: as => f a :: as
  | n + 1, a :: as => a :: modifyIdx f n as

/-- Apply `toggleNode`'s mutation to the node addressed by a path: each step
descends into the `children` (`true`) or `_children` (`false`) list at the
given index. -/
def toggleAt : List (Bool × ℕ) → VNode → VNode
  | [], t => toggleFields t
  | (b, i) :: p, .mk cs hs =>
    if b then .mk (modifyIdx (toggleAt p) i cs) hs
    else .mk cs (modifyIdx (toggleAt p) i hs)

/-- A sequence of `toggleNode` calls at the given paths, left to right. -/
def toggleSeq (paths : List (List (Bool × ℕ))) (t : VNode) : VNode :=
  paths.foldl (fun acc p => toggleAt p acc) t

/-! ### Node radius scale (WeightedTree.js lines 225-236 and 325)

`nodeScale = d3.scaleSqrt()` is a d3 power scale with exponent `1/2` and no
clamping: its transform is the sign-symmetric square root, a degenerate
(zero-width) transformed domain maps every input to the midpoint of the
range, and otherwise the scale interpolates linearly between the range
endpoints in transformed space.  `measure` sets
`nodeScale.range([1.5, scale / 2])` (line 325); `rangeHi` below stands for
that `scale / 2`.  A `NaN` input (a non-numeric `scope.value`) is `none`. -/

/-- d3's sign-symmetric square root transform for power scales. -/
noncomputable def sqrtS (x : ℝ) : ℝ :=
  if x < 0 then -Real.sqrt (-x) else Real.sqrt x

/-- A `d3.scaleSqrt()` with domain `[d0, d1]` and range `[r0, r1]`, applied
to a JS number (`none` = `NaN`, which propagates except through the
degenerate-domain constant branch). -/
noncomputable def d3ScaleSqrt (d0 d1 r0 r1 : ℝ) (x : Option ℝ) : Option ℝ :=
  let a := sqrtS d0
  let b := sqrtS d1 - a
  if b = 0 then some (r0 + (1 / 2) * (r1 - r0))
  else
    match x with
    | none => none
    | some v => some (r0 + ((sqrtS v - a) / b) * (r1 - r0))

/-- `nodeRadius` (WeightedTree.js lines 225-236): the root (depth 0, or a
node with no data) gets half the top of the range; otherwise the sqrt scale
is applied to the node's value over the per-depth `[min, max]` domain; a
non-numeric result is replaced by `0`. -/
noncomputable def nodeRadius (depth : ℕ) (hasData : Bool) (value : Option ℝ)
    (minV maxV rangeHi : ℝ) : ℝ :=
  let r : Option ℝ :=
    if depth = 0 ∨ hasData = false then some (rangeHi / 2)
    else d3ScaleSqrt minV maxV (3 / 2) rangeHi value
  match r with
  | none => 0
  | some v => v

/-! ### `updateTreeSize` (WeightedTree.js lines 561-606)

Node coordinates are JS numbers; as everywhere in this layout the `x` field
is the vertical and `y` the horizontal plot coordinate (the projection is
transposed).  The extent scan feeds the svg canvas growth and the vertical
`offsetY`; the horizontal normalization `d.y = d.depth * depthSpan + cx`
depends on neither.  `cx` is set by `measure` to `size.left` (line 342) and
`cy` to `size.top + size.height / 2` (line 343). -/

/-- A laid-out node: depth and current plotted position. -/
structure LNode where
  depth : ℕ
  x : ℚ
  y : ℚ
deriving DecidableEq

/-- Fold of JS `Math.min` over a list, starting from `Infinity` (`none`). -/
def jsMinList : List ℚ → Option ℚ
  | [] => none
  | a :: as =>
    match jsMinList as with
    | none => some a
    | some b => some (min a b)

/-- Fold of JS `Math.max` over a list, starting from `-Infinity` (`none`). -/
def jsMaxList : List ℚ → Option ℚ
  | [] => none
  | a :: as =>
    match jsMaxList as with
    | none => some a
    | some b => some (max a b)

/-- `depthSpan` (WeightedTree.js line 327): the configured fixed horizontal
padding when positive, else the available width divided by `maxDepth + 1`. -/
def depthSpanCalc (horizontalPadding sizeWidth : ℚ) (maxDepth : ℕ) : ℚ :=
  if horizontalPadding > 0 then horizontalPadding
  else sizeWidth / ((maxDepth : ℚ) + 1)

/-- The vertical offset of `updateTreeSize`:
`Math.max(0, -minY - size.height / 2) + tree.nodeSize()[0] / 2`, where
`minY` has been scaled by the current zoom factor when zooming is on.  With
no nodes `minY` is `Infinity` and the `Math.max` gives `0`. -/
def offsetYCalc (nodes : List LNode) (useZoom : Bool) (zoomK sizeHeight nodeSizeX : ℚ) : ℚ :=
  let minY0 := jsMinList (nodes.map (·.y))
  let minY := if useZoom then minY0.map (· * zoomK) else minY0
  (match minY with
   | none => 0
   | some m => max 0 (-m - sizeHeight / 2)) + nodeSizeX / 2

/-- The canvas height `h` of `updateTreeSize`:
`Math.max(scope.height, maxX - minX + size.top)`, grown to
`size.height / 2 + maxY + tree.nodeSize()[0]` when the expanded extent
would reach below the fold (`none` = the degenerate no-node `NaN`). -/
def canvasHeight (nodes : List LNode) (useZoom : Bool)
    (zoomK scopeHeight sizeTop sizeHeight nodeSizeX : ℚ) : Option ℚ :=
  match jsMaxList (nodes.map (·.x)), jsMinList (nodes.map (·.x)),
      jsMaxList (nodes.map (·.y)) with
  | some mX0, some mnX, some mY0 =>
    let mX := if useZoom then mX0 * zoomK else mX0
    let mY := if useZoom then mY0 * zoomK else mY0
    let h := max scopeHeight (mX - mnX + sizeTop)
    some (if sizeHeight / 2 + mY > h then sizeHeight / 2 + mY + nodeSizeX else h)
  | _, _, _ => none

/-- The canvas width `w` of `updateTreeSize`:
`Math.max(scope.width, maxY + scope.width * .2 + size.left)`. -/
def canvasWidth (nodes : List LNode) (useZoom : Bool)
    (zoomK scopeWidth sizeLeft : ℚ) : Option ℚ :=
  match jsMaxList (nodes.map (·.y)) with
  | some mY0 =>
    let mY := if useZoom then mY0 * zoomK else mY0
    some (max scopeWidth (mY + scopeWidth * (1 / 5) + sizeLeft))
  | none => none

/-- The node repositioning of `updateTreeSize` (lines 597-602): every node's
horizontal coordinate is normalized to `d.depth * depthSpan + cx` and its
vertical coordinate shifted by `offsetY + cy - tree.nodeSize()[0]`. -/
def updateTreeSize (nodes : List LNode) (useZoom : Bool)
    (zoomK sizeHeight nodeSizeX depthSpan cx cy : ℚ) : List LNode :=
  let offsetY := offsetYCalc nodes useZoom zoomK sizeHeight nodeSizeX
  nodes.map fun d =>
    { d with
      y := (d.depth : ℚ) * depthSpan + cx
      x := d.x + offsetY + cy - nodeSizeX }

/-! ### `endUpdate` (WeightedTree.js lines 609-618)

`endUpdate` counts the elements of the transition batch with `.each`
(`++n`), then registers an `end` handler that runs `if (!--n) callback()`.
The run is modelled as the counter value together with the number of
callback firings after a given number of `end` events. -/

/-- State after processing `m` transition-end events starting from counter
`n`: the final counter and how many times the callback fired. -/
def latchRun : ℤ → ℕ → ℤ × ℕ
  | n, 0 => (n, 0)
  | n, m + 1 =>
    let n1 := n - 1
    let rest := latchRun n1 m
    (rest.1, (if n1 = 0 then 1 else 0) + rest.2)

/-- Number of `node_refresh` callback firings after `m` of the `k` started
transitions have ended. -/
def endUpdateFireCount (k : ℤ) (m : ℕ) : ℕ :=
  (latchRun k m).2

/-! ## Theorems -/

/-- C1: the claim says the render pass invoked by an interactive toggle uses
a zero duration, i.e. that `updateNode` actually runs with duration `0`.
The code violates this: `toggleNode` passes `0`, but `updateNode`'s guard
`if (!duration) duration = scope.duration` treats `0` as absent because `0`
is falsy, so the transitions run with the component's configured default
duration (500) instead of instantaneously. -/
theorem toggleNode_duration_is_default :
    toggleNodeUpdateDuration 500 = 500 ∧ toggleNodeUpdateDuration 500 ≠ 0 := by
  constructor <;> decide

/-- C3: `vizuly2.core.util.size` with margin
`{top: 10, bottom: 10, left: '10%', right: '10%'}` and width = height = 500
returns exactly `{width: 400, height: 480, left: 50, top: 10, right: 50,
bottom: 10}`: percentages resolve against the width for left/right and the
height for top/bottom, and width/height are the inputs minus the two
resolved margins of that axis. -/
theorem size_concrete_example :
    size { top := .num 10, bottom := .num 10, left := .str ("10%"), right := .str ("10%") }
        500 500 =
      { width := some 400, height := some 480, top := some 10, left := some 50,
        bottom := some 10, right := some 50 } := by
  simp [size, measure, jsSub, jsToNumberChars, isJsSpace, digitsVal, jsRound, min_def]
  norm_num

/-- C10: `measure` maps a string ending in `%` to
`round(d * min(percent, 100) / 100)` — percentage clamped to at most 100 and
the product rounded to nearest — and every other input through the `Number`
coercion, which degrades to `NaN` (`none`) on non-numeric strings without
raising (the embedding is a total function).  Concretely, `200%` of `100`
clamps to `100` and `'abc'` yields `NaN`. -/
theorem measure_semantics (s : String) (d q : ℚ) :
    (s.toList.getLast? = some '%' →
      measure (.str s) d =
        (jsToNumberChars s.toList.dropLast).map fun p => jsRound (d * min p 100 / 100)) ∧
    (s.toList.getLast? ≠ some '%' → measure (.str s) d = jsToNumber s) ∧
    measure (.num q) d = some q ∧
    measure (.str ("200%")) 100 = some 100 ∧
    measure (.str ("abc")) 100 = none := by
  refine ⟨?_, ?_, rfl, ?_, ?_⟩
  · intro h
    show (if s.toList.getLast? = some '%' then _ else _) = _
    rw [if_pos h]
    cases jsToNumberChars s.toList.dropLast with
    | none => rfl
    | some p => simp [mul_div_assoc]
  · intro h
    show (if s.toList.getLast? = some '%' then _ else _) = _
    rw [if_neg h]
  · simp [measure, jsToNumberChars, isJsSpace, digitsVal, jsRound, min_def]
    norm_num
  · simp [measure, jsToNumber, jsToNumberChars, isJsSpace, digitsVal]

/-- Witness for C10 on the margin string `10%` against a width of 500. -/
theorem measure_semantics_witness :
    measure (.str ("10%")) 500 =
      (jsToNumberChars ("10%").toList.dropLast).map fun p => jsRound (500 * min p 100 / 100) :=
  (measure_semantics ("10%") 500 0).1 (by decide)

/-- Closed form of the countdown latch: starting from counter `k`, the
callback fires at the `j`-th end event exactly when `j = k`, so the number
of firings after `m` events is `1` when `1 ≤ k ≤ m` and `0` otherwise. -/
theorem endUpdateFireCount_closed (m : ℕ) :
    ∀ k : ℤ, endUpdateFireCount k m = if 1 ≤ k ∧ k ≤ (m : ℤ) then 1 else 0 := by
  induction m with
  | zero =>
    intro k
    simp only [endUpdateFireCount, latchRun]
    split
    · omega
    · rfl
  | succ m ih =>
    intro k
    have step : endUpdateFireCount k (m + 1) =
        (if k - 1 = 0 then 1 else 0) + endUpdateFireCount (k - 1) m := by
      simp [endUpdateFireCount, latchRun]
    rw [step, ih (k - 1)]
    split <;> split <;> split <;> omega

/-- C9: for a batch of `k ≥ 1` node-update transitions, the `node_refresh`
callback registered by `endUpdate` fires exactly once — at the `k`-th (last)
transition-end event — and zero times while any of the `k` transitions is
still outstanding. -/
theorem endUpdate_fires_once (k : ℕ) (hk : 1 ≤ k) :
    endUpdateFireCount (k : ℤ) k = 1 ∧
      ∀ m : ℕ, m < k → endUpdateFireCount (k : ℤ) m = 0 := by
  constructor
  · rw [endUpdateFireCount_closed]
    simp
    omega
  · intro m hm
    rw [endUpdateFireCount_closed]
    split
    · omega
    · rfl

/-- Witness for C9 at a concrete batch of three transitions. -/
theorem endUpdate_fires_once_witness :
    endUpdateFireCount 3 3 = 1 ∧ endUpdateFireCount 3 2 = 0 :=
  ⟨(endUpdate_fires_once 3 (by decide)).1, (endUpdate_fires_once 3 (by decide)).2 2 (by decide)⟩

/-- C8: after the repositioning pass of `updateTreeSize`, every node's
horizontal plot coordinate (the `y` field, under the transposed projection)
equals `depth * depthSpan + cx`, where `cx` is the resolved left margin and
`depthSpan` is the configured fixed horizontal padding when positive and
`size.width / (maxDepth + 1)` otherwise. -/
theorem updateTreeSize_normalizes_depth (nodes : List LNode) (useZoom : Bool)
    (zoomK sizeHeight nodeSizeX hp sizeWidth cx cy : ℚ) (maxDepth : ℕ) (n : LNode)
    (hn : n ∈ updateTreeSize nodes useZoom zoomK sizeHeight nodeSizeX
      (depthSpanCalc hp sizeWidth maxDepth) cx cy) :
    n.y = (n.depth : ℚ) * depthSpanCalc hp sizeWidth maxDepth + cx := by
  unfold updateTreeSize at hn
  simp only [List.mem_map] at hn
  obtain ⟨d, -, rfl⟩ := hn
  rfl

/-- Witness for C8 on a concrete two-node layout. -/
theorem updateTreeSize_normalizes_depth_witness :
    (LNode.mk 2 7 25).y = ((LNode.mk 2 7 25).depth : ℚ) * depthSpanCalc (-1) 30 2 + 5 :=
  updateTreeSize_normalizes_depth [LNode.mk 2 3 9] false 1 10 4 (-1) 30 5 6 2
    (LNode.mk 2 7 25)
    (by simp [updateTreeSize, offsetYCalc, jsMinList, depthSpanCalc]; norm_num)

/-! ### C4: aggregateNest -/

mutual

/-- Refinement: with a calculation that is a lifted total function (the
documented `Number(a) + Number(b)` shape) and every group nonempty, the
code's aggregate equals the spec's clean left fold seeded at `0`. -/
theorem aggProp_eq_aggSpec (g : ℚ → ℚ → ℚ) (p : String) (n : Nest)
    (h : groupsNonemptyB n = true) :
    aggProp (liftCalc g) p n = some (aggSpec g p n) := by
  cases n with
  | leaf r =>
    simp only [aggProp, aggSpec]
    cases jsNumberOpt (r.lookup p) <;> rfl
  | group k vs =>
    cases vs with
    | nil => simp [groupsNonemptyB] at h
    | cons c cs =>
      simp only [groupsNonemptyB, List.isEmpty_cons, Bool.not_false, Bool.true_and,
        groupsNonemptyListB, Bool.and_eq_true] at h
      simp only [aggProp, aggFold, aggSpec, aggSpecFold]
      rw [aggProp_eq_aggSpec g p c h.1]
      show aggFold (liftCalc g) p cs (liftCalc g (some 0) (some (aggSpec g p c))) = _
      rw [show liftCalc g (some 0) (some (aggSpec g p c)) = some (g 0 (aggSpec g p c)) from rfl]
      exact aggFold_eq_aggSpecFold g p cs (g 0 (aggSpec g p c)) h.2

/-- The accumulator loop refines the spec's fold once the accumulator is a
number. -/
theorem aggFold_eq_aggSpecFold (g : ℚ → ℚ → ℚ) (p : String) (cs : List Nest) (a : ℚ)
    (h : groupsNonemptyListB cs = true) :
    aggFold (liftCalc g) p cs (some a) = some (aggSpecFold g p cs a) := by
  cases cs with
  | nil => rfl
  | cons c cs' =>
    simp only [groupsNonemptyListB, Bool.and_eq_true] at h
    simp only [aggFold, aggSpecFold]
    rw [aggProp_eq_aggSpec g p c h.1]
    show aggFold (liftCalc g) p cs' (liftCalc g (some a) (some (aggSpec g p c))) = _
    rw [show liftCalc g (some a) (some (aggSpec g p c)) = some (g a (aggSpec g p c)) from rfl]
    exact aggFold_eq_aggSpecFold g p cs' (g a (aggSpec g p c)) h.2

end

/-- The example leaf record carrying a value under property name `v`. -/
def exLeaf (q : ℚ) : Nest :=
  .leaf [(("v"), .num q)]

/-- First group of the example nest, leaf values 1, 2, 3. -/
def exG1 : Nest :=
  .group ("a") [exLeaf 1, exLeaf 2, exLeaf 3]

/-- Second group of the example nest, leaf values 4, 5. -/
def exG2 : Nest :=
  .group ("b") [exLeaf 4, exLeaf 5]

/-- A root group over the two example groups (the root-equivalent
aggregate). -/
def exRoot : Nest :=
  .group ("r") [exG1, exG2]

/-- C4: with a combine function of the documented total shape and every
group nonempty (an invariant of every `d3.nest().entries` result), each
leaf's aggregate is `Number(record[prop])` with `0` substituted for `NaN`
(that is the `aggSpec` leaf clause) and each group's aggregate is the
combine function folded left-to-right over its children's aggregates seeded
at `0`; with combine = sum over the 2-level nest with leaf values
`[1,2,3]` and `[4,5]`, the group aggregates are 6 and 9 and the
root-equivalent aggregate is 15. -/
theorem aggregateNest_fold_and_sums (g : ℚ → ℚ → ℚ) (p : String) (n : Nest)
    (h : groupsNonemptyB n = true) :
    aggProp (liftCalc g) p n = some (aggSpec g p n) ∧
    aggProp (liftCalc (· + ·)) ("v") exG1 = some 6 ∧
    aggProp (liftCalc (· + ·)) ("v") exG2 = some 9 ∧
    aggProp (liftCalc (· + ·)) ("v") exRoot = some 15 := by
  refine ⟨aggProp_eq_aggSpec g p n h, ?_, ?_, ?_⟩ <;>
    · simp [exRoot, exG1, exG2, exLeaf, aggProp, aggFold, jsNumberOpt, jsNumber,
        liftCalc, List.lookup]
      norm_num

/-- Witness for C4 applying the refinement at the concrete example nest. -/
theorem aggregateNest_fold_and_sums_witness :
    groupsNonemptyB exRoot = true ∧
    aggProp (liftCalc (· + ·)) ("v") exRoot = some (aggSpec (· + ·) ("v") exRoot) :=
  ⟨by decide, (aggregateNest_fold_and_sums (· + ·) ("v") exRoot (by decide)).1⟩

/-! ### C2, C6, C7: collapse/expand state -/

/-- `collapse` clears the `children` field of the node it is applied to. -/
theorem collapse_children (t : VNode) : (collapse t).children = [] := by
  cases t with
  | mk cs hs => cases cs <;> rfl

/-- A collapsed node contributes only itself to the active node set. -/
theorem activeNodes_collapse (t : VNode) : activeNodes (collapse t) = [collapse t] := by
  cases t with
  | mk cs hs => cases cs <;> rfl

/-- Collapsed children contribute exactly themselves to the active set. -/
theorem activeNodesList_collapseList (l : List VNode) :
    activeNodesList (collapseList l) = collapseList l := by
  induction l with
  | nil => rfl
  | cons c cs ih =>
    show activeNodes (collapse c) ++ activeNodesList (collapseList cs) = _
    rw [activeNodes_collapse, ih]
    rfl

/-- Unfolding `freshB` at a node into its two propositional parts. -/
theorem freshB_mk (cs hs : List VNode) :
    freshB (.mk cs hs) = true ↔ hs = [] ∧ freshListB cs = true := by
  show (hs.isEmpty && freshListB cs) = true ↔ _
  simp [Bool.and_eq_true, List.isEmpty_iff]

/-- Unfolding `allCollapsedB` at a node with cleared children. -/
theorem allCollapsedB_mkNil (l : List VNode) :
    allCollapsedB (.mk [] l) = allCollapsedListB l := by
  show (true && true && allCollapsedListB l) = _
  rw [Bool.true_and, Bool.true_and]

/-- Unfolding `allCollapsedListB` at a cons cell. -/
theorem allCollapsedListB_cons (c : VNode) (cs : List VNode) :
    allCollapsedListB (c :: cs) = true ↔
      allCollapsedB c = true ∧ allCollapsedListB cs = true := by
  show (allCollapsedB c && allCollapsedListB cs) = true ↔ _
  simp [Bool.and_eq_true]

/-- Unfolding `freshListB` at a cons cell. -/
theorem freshListB_cons (c : VNode) (cs : List VNode) :
    freshListB (c :: cs) = true ↔ freshB c = true ∧ freshListB cs = true := by
  show (freshB c && freshListB cs) = true ↔ _
  simp [Bool.and_eq_true]

mutual

/-- Collapsing a fresh subtree leaves every node in it with cleared
`children`. -/
theorem collapse_fresh_allCollapsed (t : VNode) (h : freshB t = true) :
    allCollapsedB (collapse t) = true := by
  cases t with
  | mk cs hs =>
    obtain ⟨h1, h2⟩ := (freshB_mk cs hs).mp h
    cases cs with
    | nil =>
      subst h1
      rfl
    | cons c cs' =>
      show allCollapsedB (.mk [] (collapseList (c :: cs'))) = true
      rw [allCollapsedB_mkNil]
      exact collapseList_fresh_allCollapsed (c :: cs') h2

/-- `collapse_fresh_allCollapsed` over a list. -/
theorem collapseList_fresh_allCollapsed (l : List VNode) (h : freshListB l = true) :
    allCollapsedListB (collapseList l) = true := by
  cases l with
  | nil => rfl
  | cons c cs =>
    obtain ⟨h1, h2⟩ := (freshListB_cons c cs).mp h
    show allCollapsedListB (collapse c :: collapseList cs) = true
    rw [allCollapsedListB_cons]
    exact ⟨collapse_fresh_allCollapsed c h1, collapseList_fresh_allCollapsed cs h2⟩

end

mutual

/-- Collapsing a fresh subtree moves, and never drops, nodes: the total
node count is unchanged. -/
theorem countNodes_collapse (t : VNode) (h : freshB t = true) :
    countNodes (collapse t) = countNodes t := by
  cases t with
  | mk cs hs =>
    obtain ⟨h1, h2⟩ := (freshB_mk cs hs).mp h
    subst h1
    cases cs with
    | nil => rfl
    | cons c cs' =>
      show 1 + countNodesList [] + countNodesList (collapseList (c :: cs')) =
        1 + countNodesList (c :: cs') + countNodesList []
      rw [countNodesList_collapseList (c :: cs') h2]
      omega

/-- `countNodes_collapse` over a list. -/
theorem countNodesList_collapseList (l : List VNode) (h : freshListB l = true) :
    countNodesList (collapseList l) = countNodesList l := by
  cases l with
  | nil => rfl
  | cons c cs =>
    obtain ⟨h1, h2⟩ := (freshListB_cons c cs).mp h
    show countNodes (collapse c) + countNodesList (collapseList cs) = _
    rw [countNodes_collapse c h1, countNodesList_collapseList cs h2]
    rfl

end

/-- Unfolding `allAtMostOneB` at a node into its three parts. -/
theorem allAtMostOneB_mk (cs hs : List VNode) :
    allAtMostOneB (.mk cs hs) = true ↔
      (cs = [] ∨ hs = []) ∧ allAtMostOneListB cs = true ∧ allAtMostOneListB hs = true := by
  show ((cs.isEmpty || hs.isEmpty) && allAtMostOneListB cs && allAtMostOneListB hs) = true ↔ _
  simp [Bool.and_eq_true, Bool.or_eq_true, List.isEmpty_iff, and_assoc]

/-- Unfolding `allAtMostOneListB` at a cons cell. -/
theorem allAtMostOneListB_cons (c : VNode) (cs : List VNode) :
    allAtMostOneListB (c :: cs) = true ↔
      allAtMostOneB c = true ∧ allAtMostOneListB cs = true := by
  show (allAtMostOneB c && allAtMostOneListB cs) = true ↔ _
  simp [Bool.and_eq_true]

mutual

/-- Collapsing a fresh subtree establishes the at-most-one invariant
everywhere in it. -/
theorem collapse_fresh_atMostOne (t : VNode) (h : freshB t = true) :
    allAtMostOneB (collapse t) = true := by
  cases t with
  | mk cs hs =>
    obtain ⟨h1, h2⟩ := (freshB_mk cs hs).mp h
    subst h1
    cases cs with
    | nil => rfl
    | cons c cs' =>
      show allAtMostOneB (.mk [] (collapseList (c :: cs'))) = true
      rw [allAtMostOneB_mk]
      exact ⟨Or.inl rfl, rfl, collapseList_fresh_atMostOne (c :: cs') h2⟩

/-- `collapse_fresh_atMostOne` over a list. -/
theorem collapseList_fresh_atMostOne (l : List VNode) (h : freshListB l = true) :
    allAtMostOneListB (collapseList l) = true := by
  cases l with
  | nil => rfl
  | cons c cs =>
    obtain ⟨h1, h2⟩ := (freshListB_cons c cs).mp h
    show allAtMostOneListB (collapse c :: collapseList cs) = true
    rw [allAtMostOneListB_cons]
    exact ⟨collapse_fresh_atMostOne c h1, collapseList_fresh_atMostOne cs h2⟩

end

/-- The initial collapse of a fresh hierarchy establishes the at-most-one
invariant everywhere. -/
theorem initialCollapse_atMostOne (t : VNode) (h : freshB t = true) :
    allAtMostOneB (initialCollapse t) = true := by
  cases t with
  | mk cs hs =>
    obtain ⟨h1, h2⟩ := (freshB_mk cs hs).mp h
    subst h1
    show allAtMostOneB (.mk (collapseList cs) []) = true
    rw [allAtMostOneB_mk]
    exact ⟨Or.inr rfl, collapseList_fresh_atMostOne cs h2, rfl⟩

/-- `toggleNode`'s field mutation preserves (indeed re-establishes) the
at-most-one invariant at the toggled node and leaves the rest alone. -/
theorem toggleFields_atMostOne (t : VNode) (h : allAtMostOneB t = true) :
    allAtMostOneB (toggleFields t) = true := by
  cases t with
  | mk cs hs =>
    obtain ⟨-, hcs, hhs⟩ := (allAtMostOneB_mk cs hs).mp h
    cases cs with
    | nil =>
      show allAtMostOneB (.mk hs []) = true
      rw [allAtMostOneB_mk]
      exact ⟨Or.inr rfl, hhs, rfl⟩
    | cons c cs' =>
      show allAtMostOneB (.mk [] (c :: cs')) = true
      rw [allAtMostOneB_mk]
      exact ⟨Or.inl rfl, rfl, hcs⟩

/-- `modifyIdx` does not change emptiness of a list. -/
theorem modifyIdx_isEmpty (f : VNode → VNode) (i : ℕ) (l : List VNode) :
    (modifyIdx f i l) = [] ↔ l = [] := by
  cases l <;> cases i <;> simp [modifyIdx]

/-- `modifyIdx` with an invariant-preserving function preserves the listwise
invariant. -/
theorem allAtMostOneListB_modifyIdx (f : VNode → VNode)
    (hf : ∀ t, allAtMostOneB t = true → allAtMostOneB (f t) = true) :
    ∀ (i : ℕ) (l : List VNode),
      allAtMostOneListB l = true → allAtMostOneListB (modifyIdx f i l) = true := by
  intro i l
  induction l generalizing i with
  | nil => intro h; cases i <;> exact h
  | cons c cs ih =>
    intro h
    obtain ⟨h1, h2⟩ := (allAtMostOneListB_cons c cs).mp h
    cases i with
    | zero =>
      show allAtMostOneListB (f c :: cs) = true
      rw [allAtMostOneListB_cons]
      exact ⟨hf c h1, h2⟩
    | succ j =>
      show allAtMostOneListB (c :: modifyIdx f j cs) = true
      rw [allAtMostOneListB_cons]
      exact ⟨h1, ih j h2⟩

/-- A `toggleNode` applied anywhere in the hierarchy preserves the
at-most-one invariant. -/
theorem toggleAt_atMostOne (p : List (Bool × ℕ)) :
    ∀ t : VNode, allAtMostOneB t = true → allAtMostOneB (toggleAt p t) = true := by
  induction p with
  | nil => exact fun t h => toggleFields_atMostOne t h
  | cons step rest ih =>
    intro t h
    obtain ⟨b, i⟩ := step
    cases t with
    | mk cs hs =>
      obtain ⟨h0, hcs, hhs⟩ := (allAtMostOneB_mk cs hs).mp h
      cases b with
      | true =>
        show allAtMostOneB (.mk (modifyIdx (toggleAt rest) i cs) hs) = true
        rw [allAtMostOneB_mk]
        refine ⟨?_, allAtMostOneListB_modifyIdx _ ih i cs hcs, hhs⟩
        rcases h0 with h0 | h0
        · exact Or.inl ((modifyIdx_isEmpty _ i cs).mpr h0)
        · exact Or.inr h0
      | false =>
        show allAtMostOneB (.mk cs (modifyIdx (toggleAt rest) i hs)) = true
        rw [allAtMostOneB_mk]
        refine ⟨?_, hcs, allAtMostOneListB_modifyIdx _ ih i hs hhs⟩
        rcases h0 with h0 | h0
        · exact Or.inl h0
        · exact Or.inr ((modifyIdx_isEmpty _ i hs).mpr h0)

/-- Any sequence of toggles preserves the at-most-one invariant. -/
theorem toggleSeq_atMostOne (paths : List (List (Bool × ℕ))) :
    ∀ t : VNode, allAtMostOneB t = true → allAtMostOneB (toggleSeq paths t) = true := by
  induction paths with
  | nil => exact fun _ h => h
  | cons p rest ih =>
    intro t h
    exact ih (toggleAt p t) (toggleAt_atMostOne p t h)

/-- C2 counterexample: in the three-node chain root → child → leaf, the
initial collapse produces a hierarchy whose deepest node has `children` and
`_children` both empty, so "exactly one of the two is non-empty" fails for
it; the leaf child of a two-node tree even sits in the active set with both
fields empty. -/
theorem layoutNode_exactlyOne_fails :
    initialCollapse (VNode.mk [VNode.mk [VNode.mk [] []] []] []) =
      VNode.mk [VNode.mk [] [VNode.mk [] []]] [] ∧
    exactlyOneB (VNode.mk [] []) = false ∧
    VNode.mk [] [] ∈ activeNodes (initialCollapse (VNode.mk [VNode.mk [] []] [])) := by
  refine ⟨rfl, rfl, ?_⟩
  show VNode.mk [] [] ∈ [VNode.mk [VNode.mk [] []] [], VNode.mk [] []]
  exact List.mem_cons_of_mem _ (List.mem_cons_self _ _)

/-- C2 (amended): at every point of the component's lifetime — after the
initial collapse of a fresh hierarchy and after any sequence of
`toggleNode` mutations anywhere in the tree — every LayoutNode has **at
most** one of `children`, `_children` non-empty (so a node that stores any
children has exactly one non-empty, while a childless leaf has both empty).
Collapse destructively moves the `children` reference into `_children`, and
expanding moves it back: toggling an expanded node with no stash twice
restores the original fields. -/
theorem layoutNode_atMostOne_invariant (t : VNode) (paths : List (List (Bool × ℕ)))
    (h : freshB t = true) :
    allAtMostOneB (toggleSeq paths (initialCollapse t)) = true ∧
    (∀ c : VNode, ∀ cs hs : List VNode,
      toggleFields (VNode.mk (c :: cs) hs) = VNode.mk [] (c :: cs) ∧
      toggleFields (toggleFields (VNode.mk (c :: cs) [])) = VNode.mk (c :: cs) []) := by
  refine ⟨toggleSeq_atMostOne paths _ (initialCollapse_atMostOne t h), ?_⟩
  intro c cs hs
  exact ⟨rfl, rfl⟩

/-- Witness for C2 on a concrete fresh three-node chain and one toggle. -/
theorem layoutNode_atMostOne_invariant_witness :
    allAtMostOneB (toggleSeq [[(true, 0)]]
      (initialCollapse (VNode.mk [VNode.mk [VNode.mk [] []] []] []))) = true :=
  (layoutNode_atMostOne_invariant (VNode.mk [VNode.mk [VNode.mk [] []] []] [])
    [[(true, 0)]] rfl).1

/-- C6: after the first-build collapse of a fresh (dirty-data) hierarchy,
the active (expanded) node set is exactly the root followed by its
immediate children; every node strictly below the root has its children
moved — recursively — into `_children` with `children` cleared, and no node
is dropped in the move (subtree node counts are preserved). -/
theorem initialCollapse_active_set (cs hs : List VNode)
    (h : freshB (VNode.mk cs hs) = true) :
    activeNodes (initialCollapse (VNode.mk cs hs)) =
      VNode.mk (collapseList cs) hs :: collapseList cs ∧
    allCollapsedListB (collapseList cs) = true ∧
    countNodesList (collapseList cs) = countNodesList cs := by
  obtain ⟨h1, h2⟩ := (freshB_mk cs hs).mp h
  refine ⟨?_, collapseList_fresh_allCollapsed cs h2, countNodesList_collapseList cs h2⟩
  show VNode.mk (collapseList cs) hs :: activeNodesList (collapseList cs) = _
  rw [activeNodesList_collapseList]

/-- Witness for C6 on a concrete fresh three-level tree. -/
theorem initialCollapse_active_set_witness :
    activeNodes (initialCollapse (VNode.mk [VNode.mk [VNode.mk [] []] []] [])) =
      VNode.mk (collapseList [VNode.mk [VNode.mk [] []] []]) [] ::
        collapseList [VNode.mk [VNode.mk [] []] []] :=
  (initialCollapse_active_set [VNode.mk [VNode.mk [] []] []] [] rfl).1

/-- C7: for a `toggleNode` call on an expandable node (one with children or
stashed children): toggling it open (children restored from `_children`)
zooms to the node itself, and toggling it closed (children moved to
`_children`) zooms to its parent when a parent exists. -/
theorem toggleNode_zoom_targets (d : VNode) (hasParent : Bool)
    (hx : d.children ≠ [] ∨ d.hiddenChildren ≠ []) :
    (d.children = [] → (toggleNode d hasParent).2 = some ZoomTarget.self) ∧
    (d.children ≠ [] → hasParent = true →
      (toggleNode d hasParent).2 = some ZoomTarget.parent) := by
  cases d with
  | mk cs hs =>
    cases cs with
    | nil =>
      have hhs : hs ≠ [] := by
        rcases hx with h | h
        · exact absurd rfl h
        · exact h
      constructor
      · intro _
        show (if hs.isEmpty then none else some ZoomTarget.self) = some ZoomTarget.self
        rw [if_neg ?_]
        simpa [List.isEmpty_iff] using hhs
      · intro hc
        exact absurd rfl hc
    | cons c cs' =>
      constructor
      · intro hc
        exact absurd hc (by simp [VNode.children])
      · intro _ hp
        subst hp
        rfl

/-- Witness for C7: toggling a collapsed node with one stashed child open
zooms to the node itself. -/
theorem toggleNode_zoom_targets_witness :
    (toggleNode (VNode.mk [] [VNode.mk [] []]) true).2 = some ZoomTarget.self :=
  (toggleNode_zoom_targets (VNode.mk [] [VNode.mk [] []]) true
    (Or.inr (by simp [VNode.hiddenChildren]))).1 rfl

/-! ### C5: the node radius scale -/

/-- The sign-symmetric square root transform is monotone on all of `ℝ`. -/
theorem sqrtS_monotone {x y : ℝ} (h : x ≤ y) : sqrtS x ≤ sqrtS y := by
  unfold sqrtS
  split_ifs with hx hy
  · exact neg_le_neg (Real.sqrt_le_sqrt (by linarith))
  · exact le_trans (neg_nonpos.mpr (Real.sqrt_nonneg _)) (Real.sqrt_nonneg _)
  · linarith
  · exact Real.sqrt_le_sqrt h

/-- At depth ≥ 1 with a numeric value and a non-degenerate domain, the
radius is the interpolated square-root scale value. -/
theorem nodeRadius_scale (d : ℕ) (hd : d ≠ 0) (v minV maxV rangeHi : ℝ)
    (hb : sqrtS maxV - sqrtS minV ≠ 0) :
    nodeRadius d true (some v) minV maxV rangeHi =
      3 / 2 + ((sqrtS v - sqrtS minV) / (sqrtS maxV - sqrtS minV)) * (rangeHi - 3 / 2) := by
  simp only [nodeRadius, d3ScaleSqrt]
  rw [if_neg (by simp [hd]), if_neg hb]

/-- At depth ≥ 1 with a degenerate (single-value) domain, every input lands
on the midpoint of the range. -/
theorem nodeRadius_degenerate (d : ℕ) (hd : d ≠ 0) (v : Option ℝ) (minV maxV rangeHi : ℝ)
    (hb : sqrtS maxV - sqrtS minV = 0) :
    nodeRadius d true v minV maxV rangeHi = 3 / 2 + (1 / 2) * (rangeHi - 3 / 2) := by
  simp only [nodeRadius, d3ScaleSqrt]
  rw [if_neg (by simp [hd]), if_pos hb]

/-- At depth ≥ 1 a `NaN` value (with a non-degenerate domain) is replaced
by radius `0`. -/
theorem nodeRadius_nan (d : ℕ) (hd : d ≠ 0) (minV maxV rangeHi : ℝ)
    (hb : sqrtS maxV - sqrtS minV ≠ 0) :
    nodeRadius d true none minV maxV rangeHi = 0 := by
  simp only [nodeRadius, d3ScaleSqrt]
  rw [if_neg (by simp [hd]), if_neg hb]

/-- C5 counterexample: the claimed monotonicity fails when the top of the
range drops below the bottom value `1.5`.  `rangeHi = 27/40` is reachable:
with the default size 600 and margins the plot height is 540, so 400
auto-spaced top-level branches give `scale = 1.35` and
`nodeScale.range([1.5, 0.675])`.  Two depth-1 nodes with values 0 and 1
(the depth's min and max) then get radii `1.5` and `0.675`: a larger value
yields a strictly smaller radius. -/
theorem nodeRadius_monotone_fails :
    nodeRadius 1 true (some 1) 0 1 (27 / 40) < nodeRadius 1 true (some 0) 0 1 (27 / 40) := by
  have h0 : sqrtS 0 = 0 := by simp [sqrtS]
  have h1 : sqrtS 1 = 1 := by simp [sqrtS]
  have hb : sqrtS (1 : ℝ) - sqrtS 0 ≠ 0 := by rw [h0, h1]; norm_num
  rw [nodeRadius_scale 1 (by decide) 1 0 1 (27 / 40) hb,
    nodeRadius_scale 1 (by decide) 0 0 1 (27 / 40) hb, h0, h1]
  norm_num

/-- C5 (amended): provided the top of the radius range (`halfOfVerticalSpacing`,
i.e. `scale / 2`) is at least the bottom endpoint `1.5` — true in every
configuration whose per-branch vertical spacing is at least 3 pixels — the
radius at a fixed depth ≥ 1 is a monotonically non-decreasing function of
the node's value, is always ≥ 0 (with a non-numeric scale output replaced
by 0, so no NaN ever surfaces: the embedding returns a total real), is the
square-root scale over `[depthMin, depthMax] → [1.5, halfOfVerticalSpacing]`,
and the root (depth 0) is exempt, always receiving half the top of the
range regardless of its value. -/
theorem nodeRadius_props (minV maxV rangeHi : ℝ) (d : ℕ)
    (hr : 3 / 2 ≤ rangeHi) (hmm : minV ≤ maxV) (hd : d ≠ 0) :
    (∀ v1 v2 : ℝ, v1 ≤ v2 →
      nodeRadius d true (some v1) minV maxV rangeHi ≤
        nodeRadius d true (some v2) minV maxV rangeHi) ∧
    (∀ v : Option ℝ, (∀ x : ℝ, v = some x → minV ≤ x ∧ x ≤ maxV) →
      0 ≤ nodeRadius d true v minV maxV rangeHi) ∧
    (∀ v : Option ℝ, nodeRadius 0 true v minV maxV rangeHi = rangeHi / 2) := by
  have hbnn : 0 ≤ sqrtS maxV - sqrtS minV := sub_nonneg.mpr (sqrtS_monotone hmm)
  have hc : 0 ≤ rangeHi - 3 / 2 := by linarith
  refine ⟨?_, ?_, ?_⟩
  · intro v1 v2 hv
    by_cases hb : sqrtS maxV - sqrtS minV = 0
    · rw [nodeRadius_degenerate d hd (some v1) minV maxV rangeHi hb,
        nodeRadius_degenerate d hd (some v2) minV maxV rangeHi hb]
    · have hbpos : 0 < sqrtS maxV - sqrtS minV := lt_of_le_of_ne hbnn (Ne.symm hb)
      rw [nodeRadius_scale d hd v1 minV maxV rangeHi hb,
        nodeRadius_scale d hd v2 minV maxV rangeHi hb]
      have hs : sqrtS v1 ≤ sqrtS v2 := sqrtS_monotone hv
      have hdiv : (sqrtS v1 - sqrtS minV) / (sqrtS maxV - sqrtS minV) ≤
          (sqrtS v2 - sqrtS minV) / (sqrtS maxV - sqrtS minV) :=
        (div_le_div_iff_of_pos_right hbpos).mpr (by linarith)
      have := mul_le_mul_of_nonneg_right hdiv hc
      linarith
  · intro v hv
    by_cases hb : sqrtS maxV - sqrtS minV = 0
    · rw [nodeRadius_degenerate d hd v minV maxV rangeHi hb]
      linarith
    · have hbpos : 0 < sqrtS maxV - sqrtS minV := lt_of_le_of_ne hbnn (Ne.symm hb)
      cases v with
      | none =>
        rw [nodeRadius_nan d hd minV maxV rangeHi hb]
      | some x =>
        obtain ⟨hx1, -⟩ := hv x rfl
        rw [nodeRadius_scale d hd x minV maxV rangeHi hb]
        have ht : 0 ≤ (sqrtS x - sqrtS minV) / (sqrtS maxV - sqrtS minV) :=
          div_nonneg (by linarith [sqrtS_monotone hx1]) (le_of_lt hbpos)
        have := mul_nonneg ht hc
        linarith
  · intro v
    simp [nodeRadius]

/-- Witness for C5 applying the root-exemption clause at a concrete scale. -/
theorem nodeRadius_props_witness :
    nodeRadius 0 true (some 5) 0 1 2 = 2 / 2 :=
  (nodeRadius_props 0 1 2 1 (by norm_num) (by norm_num) (by decide)).2.2 (some 5)

end Vizuly
